import Mathlib

/-!
# fluent-bit-output-otel-record: record conversion, severity classification, record groups

A shallow embedding of `otel.go`, `print.go` (the byte heuristic) and the record loop of
`out_plugin.go`.

Modelling conventions.

* A Go `string` or `[]byte` is the list of its bytes (`GoString`), each a natural number
  below 256.  The string literals of the source are ASCII; `lit` gives their bytes.
* A Go `interface{}` value is a `Dyn`: one constructor per dynamic type that some type switch
  of the source distinguishes, `nil` for the nil interface and `other` for every remaining
  dynamic type.  Machine integers carry their Go type (`IntKind`) and their numeric value;
  `Dyn.intInType` says that the value lies in the range of the type.
* A Go map is the list of its entries in the order in which `range` visits them.  The order
  is arbitrary in Go, so statements quantify over every list.  A real map has comparable,
  pairwise different keys (`GoMap.KeysOK` states the part of this that the proofs use).
* A run-time panic is the result `Res.panic`.
* `LogValue` is the value type `log.Value` of the OpenTelemetry log API.  `Record` is what
  the `sdklog.Record` returned by `convertToOTelRecord` holds.  The record starts as the zero
  value (`var record sdklog.Record`), so its attribute value length limit is 0 and key
  de-duplication is on; `SetBody` and `AddAttributes` are modelled with these settings.
* Writes to standard output (`fmt.Printf`, `printValue`) do not feed back into the computed
  values and are left out.
-/

namespace OtelRecord

/-! ## Values -/

/-- The bytes of a Go `string` or `[]byte`. -/
abbrev GoString := List Nat

/-- The bytes of an ASCII string literal of the source. -/
def lit (s : String) : GoString := s.toList.map Char.toNat

/-- The Go integer types that occur in the type switches. -/
inductive IntKind where
  | int | int8 | int16 | int32 | int64
  | uint | uint8 | uint16 | uint32 | uint64
  deriving DecidableEq, Repr

/-- Smallest value of a Go integer type (`int` and `uint` are 64 bits wide). -/
def IntKind.minVal : IntKind → Int
  | .int => -(2 ^ 63) | .int8 => -(2 ^ 7) | .int16 => -(2 ^ 15)
  | .int32 => -(2 ^ 31) | .int64 => -(2 ^ 63)
  | .uint => 0 | .uint8 => 0 | .uint16 => 0 | .uint32 => 0 | .uint64 => 0

/-- Largest value of a Go integer type (`int` and `uint` are 64 bits wide). -/
def IntKind.maxVal : IntKind → Int
  | .int => 2 ^ 63 - 1 | .int8 => 2 ^ 7 - 1 | .int16 => 2 ^ 15 - 1
  | .int32 => 2 ^ 31 - 1 | .int64 => 2 ^ 63 - 1
  | .uint => 2 ^ 64 - 1 | .uint8 => 2 ^ 8 - 1 | .uint16 => 2 ^ 16 - 1
  | .uint32 => 2 ^ 32 - 1 | .uint64 => 2 ^ 64 - 1

/-- A value of type `interface{}`. -/
inductive Dyn where
  /-- the nil interface -/
  | nil
  /-- Go type `string` -/
  | str (s : GoString)
  /-- Go type `[]byte` -/
  | bytes (b : GoString)
  /-- Go type `bool` -/
  | bool (b : Bool)
  /-- an integer of Go type `k` with numeric value `v` -/
  | int (k : IntKind) (v : Int)
  /-- Go type `float32`, given by its IEEE-754 bit pattern -/
  | float32 (bits : Nat)
  /-- Go type `float64`, given by its IEEE-754 bit pattern -/
  | float64 (bits : Nat)
  /-- a non-nil `map[interface{}]interface{}`, entries in iteration order -/
  | map (m : List (Dyn × Dyn))
  /-- a nil `map[interface{}]interface{}` stored in an interface -/
  | nilMap
  /-- Go type `map[string]interface{}`, entries in iteration order -/
  | strMap (m : List (GoString × Dyn))
  /-- Go type `[]interface{}` -/
  | slice (s : List Dyn)
  /-- Go type `[]map[interface{}]interface{}` -/
  | mapSlice (s : List (List (Dyn × Dyn)))
  /-- a value of any other dynamic type (a struct, a channel, ...) -/
  | other (tag : Nat)

/-- A `map[interface{}]interface{}` as the list of its entries in iteration order. -/
abbrev GoMap := List (Dyn × Dyn)

/-- A `float64` handed to `log.Float64Value`: either a `float64` of the input or the exact
widening `float64(val)` of a `float32` of the input. -/
inductive F64 where
  | ofBits (bits : Nat)
  | ofFloat32 (bits : Nat)
  deriving DecidableEq, Repr

/-- The value type `log.Value` of the OpenTelemetry log API, by kind. -/
inductive LogValue where
  | empty
  | bool (b : Bool)
  | int64 (v : Int)
  | float64 (f : F64)
  | string (s : GoString)
  | bytes (b : GoString)
  | slice (vs : List LogValue)
  | map (kvs : List (GoString × LogValue))

/-- The kinds of `log.Value`. -/
inductive Kind where
  | empty | bool | float64 | int64 | string | bytes | slice | map
  deriving DecidableEq, Repr

/-- Embeds `Value.Kind`. -/
def LogValue.kind : LogValue → Kind
  | .empty => .empty
  | .bool _ => .bool
  | .int64 _ => .int64
  | .float64 _ => .float64
  | .string _ => .string
  | .bytes _ => .bytes
  | .slice _ => .slice
  | .map _ => .map

/-- The outcome of running Go code: a result, or a run-time panic with its message. -/
inductive Res (α : Type) where
  | ok (a : α)
  | panic (msg : String)
  deriving DecidableEq, Repr

/-- Sequencing of a computation that may panic. -/
def Res.bind {α β : Type} : Res α → (α → Res β) → Res β
  | .ok a, f => f a
  | .panic msg, _ => .panic msg

/-! ## Machine arithmetic -/

/-- The conversion `int64(x)` of an integer of numeric value `x`: two's complement wrap to
64 bits. -/
def toInt64 (x : Int) : Int := (x + 2 ^ 63) % 2 ^ 64 - 2 ^ 63

/-- The conversion `byte(x)` of an integer of numeric value `x`: the low eight bits. -/
def toByte (x : Int) : Nat := (x % 256).toNat

/-! ## print.go: the byte heuristic -/

/-- Embeds `isBytes`: every element is an `int`, `int8`, `int64`, `uint8` or `uint64` that passes the
range test of its case; any other element gives `false`. -/
def isBytes : List Dyn → Bool
  | [] => true
  | .int .int num :: rest => if num < 0 || num > 255 then false else isBytes rest
  | .int .int8 num :: rest => if num < 0 then false else isBytes rest
  | .int .int64 num :: rest => if num < 0 || num > 255 then false else isBytes rest
  | .int .uint8 _ :: rest => isBytes rest
  | .int .uint64 num :: rest => if num > 255 then false else isBytes rest
  | _ :: _ => false

/-- One iteration of the loop of `interfaceSliceToString`: the byte stored at the element's
index; an element of a type without a case leaves the zero byte of `make`. -/
def sliceByte : Dyn → Nat
  | .int .int num => toByte num
  | .int .int8 num => toByte num
  | .int .int64 num => toByte num
  | .int .uint8 num => toByte num
  | .int .uint64 num => toByte num
  | _ => 0

/-- Embeds `interfaceSliceToString`. -/
def interfaceSliceToString (slice : List Dyn) : GoString := slice.map sliceByte

/-! ## otel.go: value conversion -/

/-- Embeds `interfaceToString`. -/
def interfaceToString : Dyn → GoString
  | .str val => val
  | .bytes val => val
  | .slice val => if isBytes val then interfaceSliceToString val else []
  | _ => []

mutual
/-- Embeds `convertToLogValue`. -/
def convertToLogValue : Dyn → LogValue
  | .str val => .string val
  | .bytes val => .string val
  | .bool val => .bool val
  | .int .int64 val => .int64 val
  | .int _ val => .int64 (toInt64 val)
  | .float32 val => .float64 (.ofFloat32 val)
  | .float64 val => .float64 (.ofBits val)
  | .map val => .map (convertMapEntries val)
  | .nilMap => .map []
  | .strMap val => .map (convertStringMapEntries val)
  | .slice val =>
      if isBytes val then .string (interfaceSliceToString val)
      else .slice (convertSliceElems val)
  | .mapSlice val => .slice (convertMapSliceElems val)
  | .nil => .string (interfaceToString .nil)
  | .other tag => .string (interfaceToString (.other tag))
/-- The loop of `convertMapToLogValue`. -/
def convertMapEntries : List (Dyn × Dyn) → List (GoString × LogValue)
  | [] => []
  | (k, v) :: rest => (interfaceToString k, convertToLogValue v) :: convertMapEntries rest
/-- The loop of `convertStringMapToLogValue`. -/
def convertStringMapEntries : List (GoString × Dyn) → List (GoString × LogValue)
  | [] => []
  | (k, v) :: rest => (k, convertToLogValue v) :: convertStringMapEntries rest
/-- The loop of `convertSliceToLogValue`. -/
def convertSliceElems : List Dyn → List LogValue
  | [] => []
  | v :: rest => convertToLogValue v :: convertSliceElems rest
/-- The loop of `convertMapSliceToLogValue`. -/
def convertMapSliceElems : List (List (Dyn × Dyn)) → List LogValue
  | [] => []
  | m :: rest => .map (convertMapEntries m) :: convertMapSliceElems rest
end

/-- Embeds `convertMapToLogValue`. -/
def convertMapToLogValue (m : GoMap) : LogValue := .map (convertMapEntries m)

/-- Embeds `convertStringMapToLogValue`. -/
def convertStringMapToLogValue (m : List (GoString × Dyn)) : LogValue :=
  .map (convertStringMapEntries m)

/-- Embeds `convertSliceToLogValue`. -/
def convertSliceToLogValue (s : List Dyn) : LogValue :=
  if isBytes s then .string (interfaceSliceToString s) else .slice (convertSliceElems s)

/-- Embeds `convertMapSliceToLogValue`. -/
def convertMapSliceToLogValue (s : List GoMap) : LogValue := .slice (convertMapSliceElems s)

/-- Embeds `convertToKeyValue`. -/
def convertToKeyValue (key : GoString) (value : Dyn) : GoString × LogValue :=
  (key, convertToLogValue value)

/-- Embeds `extractAttributes`. -/
def extractAttributes (m : GoMap) (pfx : GoString) : List (GoString × LogValue) :=
  m.map fun e => convertToKeyValue (pfx ++ interfaceToString e.1) e.2

/-! ## otel.go: severity -/

/-- The type `log.Severity`, an integer type. -/
abbrev Severity := Int

/-- The constant `log.SeverityTrace` (also `SeverityTrace1`). -/
def SeverityTrace : Severity := 1
/-- The constant `log.SeverityTrace2`. -/
def SeverityTrace2 : Severity := 2
/-- The constant `log.SeverityTrace3`. -/
def SeverityTrace3 : Severity := 3
/-- The constant `log.SeverityTrace4`. -/
def SeverityTrace4 : Severity := 4
/-- The constant `log.SeverityDebug` (also `SeverityDebug1`). -/
def SeverityDebug : Severity := 5
/-- The constant `log.SeverityDebug2`. -/
def SeverityDebug2 : Severity := 6
/-- The constant `log.SeverityDebug3`. -/
def SeverityDebug3 : Severity := 7
/-- The constant `log.SeverityDebug4`. -/
def SeverityDebug4 : Severity := 8
/-- The constant `log.SeverityInfo` (also `SeverityInfo1`). -/
def SeverityInfo : Severity := 9
/-- The constant `log.SeverityInfo2`. -/
def SeverityInfo2 : Severity := 10
/-- The constant `log.SeverityInfo3`. -/
def SeverityInfo3 : Severity := 11
/-- The constant `log.SeverityInfo4`. -/
def SeverityInfo4 : Severity := 12
/-- The constant `log.SeverityWarn` (also `SeverityWarn1`). -/
def SeverityWarn : Severity := 13
/-- The constant `log.SeverityWarn2`. -/
def SeverityWarn2 : Severity := 14
/-- The constant `log.SeverityWarn3`. -/
def SeverityWarn3 : Severity := 15
/-- The constant `log.SeverityWarn4`. -/
def SeverityWarn4 : Severity := 16
/-- The constant `log.SeverityError` (also `SeverityError1`). -/
def SeverityError : Severity := 17
/-- The constant `log.SeverityError2`. -/
def SeverityError2 : Severity := 18
/-- The constant `log.SeverityError3`. -/
def SeverityError3 : Severity := 19
/-- The constant `log.SeverityError4`. -/
def SeverityError4 : Severity := 20
/-- The constant `log.SeverityFatal` (also `SeverityFatal1`). -/
def SeverityFatal : Severity := 21
/-- The constant `log.SeverityFatal2`. -/
def SeverityFatal2 : Severity := 22
/-- The constant `log.SeverityFatal3`. -/
def SeverityFatal3 : Severity := 23
/-- The constant `log.SeverityFatal4`. -/
def SeverityFatal4 : Severity := 24

/-- Embeds `parseSeverity`. -/
def parseSeverity (level : GoString) : Severity :=
  if level = lit "trace" then SeverityTrace
  else if level = lit "debug" then SeverityDebug
  else if level = lit "info" ∨ level = lit "information" then SeverityInfo
  else if level = lit "warn" ∨ level = lit "warning" then SeverityWarn
  else if level = lit "error" ∨ level = lit "err" then SeverityError
  else if level = lit "fatal" ∨ level = lit "critical" ∨ level = lit "panic"
      ∨ level = lit "emergency" then SeverityFatal
  else SeverityInfo

/-- Embeds `severityToText`. -/
def severityToText (severity : Severity) : GoString :=
  if severity = SeverityTrace ∨ severity = SeverityTrace2 ∨ severity = SeverityTrace3
      ∨ severity = SeverityTrace4 then lit "TRACE"
  else if severity = SeverityDebug ∨ severity = SeverityDebug2 ∨ severity = SeverityDebug3
      ∨ severity = SeverityDebug4 then lit "DEBUG"
  else if severity = SeverityInfo ∨ severity = SeverityInfo2 ∨ severity = SeverityInfo3
      ∨ severity = SeverityInfo4 then lit "INFO"
  else if severity = SeverityWarn ∨ severity = SeverityWarn2 ∨ severity = SeverityWarn3
      ∨ severity = SeverityWarn4 then lit "WARN"
  else if severity = SeverityError ∨ severity = SeverityError2 ∨ severity = SeverityError3
      ∨ severity = SeverityError4 then lit "ERROR"
  else if severity = SeverityFatal ∨ severity = SeverityFatal2 ∨ severity = SeverityFatal3
      ∨ severity = SeverityFatal4 then lit "FATAL"
  else lit "INFO"

/-- The ASCII branch of `strings.ToLower`, one byte: `A`..`Z` move to `a`..`z`. -/
def asciiLower (c : Nat) : Nat := if 65 ≤ c ∧ c ≤ 90 then c + 32 else c

/-- Embeds `strings.ToLower` of the Go standard library.  A string of ASCII bytes only is lowered
byte by byte; any other string goes through `strings.Map(unicode.ToLower, s)`, whose Unicode
tables are not part of this development and which is the parameter `unicodeLower`. -/
def stringsToLower (unicodeLower : GoString → GoString) (s : GoString) : GoString :=
  if s.all (fun c => decide (c < 128)) then s.map asciiLower else unicodeLower s

/-- The index expression `m[key]` with a key of type `string`: the value of the entry whose
key is that string, if there is one. -/
def mapIndexString : GoMap → GoString → Option Dyn
  | [], _ => none
  | (.str s, v) :: rest, key => if s = key then some v else mapIndexString rest key
  | _ :: rest, key => mapIndexString rest key

/-- The message of the run-time panic raised when a `[]byte` is hashed as the key of a
map that has entries. -/
def unhashablePanic : String := "runtime error: hash of unhashable type []uint8"

/-- The message of the run-time panic raised when a `[]byte` is the key of a lookup in a map
without entries (empty or nil): the key is not hashed, the map access checks its type. -/
def unhashableEmptyPanic : String := "hash of unhashable type: []uint8"

/-- The message of the panic that a lookup with a `[]byte` key raises on the map `m`. -/
def unhashableMessage (m : GoMap) : String :=
  if m.isEmpty then unhashableEmptyPanic else unhashablePanic

/-- The index expression `m[[]byte(key)]` on a `map[interface{}]interface{}`.  A slice is not
comparable, so the lookup panics at run time, whatever the map holds (an empty or nil map
included). -/
def mapIndexBytes (m : GoMap) (_key : GoString) : Res (Option Dyn) :=
  .panic (unhashableMessage m)

/-- The `range` loop of `getMapValue`: the value of the first visited entry whose key has the
string form `key`. -/
def rangeLookup : GoMap → GoString → Option Dyn
  | [], _ => none
  | (k, v) :: rest, key => if interfaceToString k = key then some v else rangeLookup rest key

/-- Embeds `getMapValue`; `some val` stands for `(val, true)` and `none` for `(nil, false)`. -/
def getMapValue (m : GoMap) (key : GoString) : Res (Option Dyn) :=
  match mapIndexString m key with
  | some val => .ok (some val)
  | none =>
    (mapIndexBytes m key).bind fun r =>
      match r with
      | some val => .ok (some val)
      | none => .ok (rangeLookup m key)

/-- The slice `levelKeys` of `determineSeverity`. -/
def levelKeys : List GoString :=
  [lit "level", lit "severity", lit "log_level", lit "loglevel", lit "lvl"]

/-- The loop of `determineSeverity` over the remaining keys. -/
def determineSeverityLoop (unicodeLower : GoString → GoString) (record : GoMap) :
    List GoString → Res Severity
  | [] => .ok SeverityInfo
  | key :: rest =>
    (getMapValue record key).bind fun r =>
      match r with
      | some val => .ok (parseSeverity (stringsToLower unicodeLower (interfaceToString val)))
      | none => determineSeverityLoop unicodeLower record rest

/-- Embeds `determineSeverity`. -/
def determineSeverity (unicodeLower : GoString → GoString) (record : GoMap) : Res Severity :=
  determineSeverityLoop unicodeLower record levelKeys

/-! ## otel.go: the record builder -/

/-- A `time.Time`, as nanoseconds since the Unix epoch. -/
abbrev Time := Int

/-- Embeds `LogEntry`. -/
structure LogEntry where
  Timestamp : Time
  Record : GoMap

/-- What the `sdklog.Record` returned by `convertToOTelRecord` holds: the timestamps, the
severity and its text as set, the body as `SetBody` stores it and the attributes as the
`AddAttributes` calls store them, in order. -/
structure Record where
  timestamp : Time
  observedTimestamp : Time
  severity : Severity
  severityText : GoString
  body : LogValue
  attributes : List (GoString × LogValue)

/-- One step of the SDK's key de-duplication: a pair whose key is already held replaces
the held pair in place (the last value wins), a pair with a new key goes to the end. -/
def sdkDedupInsert (unique : List (GoString × LogValue)) (a : GoString × LogValue) :
    List (GoString × LogValue) :=
  if unique.any (fun u => decide (u.1 = a.1)) then
    unique.map fun u => if u.1 = a.1 then a else u
  else unique ++ [a]

/-- The SDK's key de-duplication of a list of pairs, front to back. -/
def sdkDedup (kvs : List (GoString × LogValue)) : List (GoString × LogValue) :=
  kvs.foldl sdkDedupInsert []

/-- The attribute value length limit of the zero-value `sdklog.Record`. -/
def attributeValueLengthLimit : Nat := 0

mutual
/-- The SDK's value limits on an attribute value of the zero-value record: a string longer
than the limit is cut to the limit, that is to no bytes; a slice is treated element by
element; in a map the values are treated and duplicate keys dropped.  (The SDK drops the
duplicates before it treats the values; the result is the same.) -/
def sdkApplyValueLimits : LogValue → LogValue
  | .string s => if s.length > attributeValueLengthLimit then .string [] else .string s
  | .slice vs => .slice (sdkApplyValueLimitsList vs)
  | .map kvs => .map (sdkDedup (sdkApplyAttrLimitsList kvs))
  | v => v
/-- The value limits on each element of a slice. -/
def sdkApplyValueLimitsList : List LogValue → List LogValue
  | [] => []
  | v :: rest => sdkApplyValueLimits v :: sdkApplyValueLimitsList rest
/-- The value limits on the value of each pair. -/
def sdkApplyAttrLimitsList : List (GoString × LogValue) → List (GoString × LogValue)
  | [] => []
  | (k, v) :: rest => (k, sdkApplyValueLimits v) :: sdkApplyAttrLimitsList rest
end

mutual
/-- The body that `SetBody` stores on a record with key de-duplication on: in every map of
the value, at any depth, duplicate keys are dropped; no length limit applies. -/
def sdkSetBody : LogValue → LogValue
  | .slice vs => .slice (sdkSetBodyList vs)
  | .map kvs => .map (sdkDedup (sdkSetBodyEntries kvs))
  | v => v
/-- The body treatment of each element of a slice. -/
def sdkSetBodyList : List LogValue → List LogValue
  | [] => []
  | v :: rest => sdkSetBody v :: sdkSetBodyList rest
/-- The body treatment of the value of each pair. -/
def sdkSetBodyEntries : List (GoString × LogValue) → List (GoString × LogValue)
  | [] => []
  | (k, v) :: rest => (k, sdkSetBody v) :: sdkSetBodyEntries rest
end

/-- The attributes that the record holds after `AddAttributes(attrs...)` when it held `held`
before: duplicate keys within `attrs` are dropped, no count limit applies (the limit 0 of the
zero-value record means none), and each value passes the value limits.  The two calls of
`convertToOTelRecord` use keys with different prefixes, so a new key never equals a held one
and the overwrite of a held attribute is not modelled. -/
def sdkAddAttributes (held attrs : List (GoString × LogValue)) : List (GoString × LogValue) :=
  held ++ sdkApplyAttrLimitsList (sdkDedup attrs)

/-- Embeds `convertToOTelRecord`; `now` is the reading of `time.Now()`, and a nil context map is
`none`. -/
def convertToOTelRecord (unicodeLower : GoString → GoString) (now : Time) (entry : LogEntry)
    (resource scope : Option GoMap) : Res Record :=
  (determineSeverity unicodeLower entry.Record).bind fun severity =>
    let body := convertToLogValue (.map entry.Record)
    let held1 := match resource with
      | some m => sdkAddAttributes [] (extractAttributes m (lit "resource."))
      | none => []
    let held2 := match scope with
      | some m => sdkAddAttributes held1 (extractAttributes m (lit "scope."))
      | none => held1
    .ok { timestamp := entry.Timestamp, observedTimestamp := now, severity := severity,
          severityText := severityToText severity, body := sdkSetBody body,
          attributes := held2 }

/-! ## otel.go: record groups -/

/-- The loop of `isRecordGroupStart` on the pair `(hasResource, hasScope)`. -/
def groupStartLoop : GoMap → Bool × Bool → Bool × Bool
  | [], acc => acc
  | (k, _) :: rest, (hasResource, hasScope) =>
    let keyStr := interfaceToString k
    let hasResource := if keyStr = lit "resource" then true else hasResource
    let hasScope := if keyStr = lit "scope" then true else hasScope
    groupStartLoop rest (hasResource, hasScope)

/-- Embeds `isRecordGroupStart`. -/
def isRecordGroupStart (record : GoMap) : Bool :=
  let r := groupStartLoop record (false, false)
  r.1 && r.2

/-- Embeds `isRecordGroupEnd`. -/
def isRecordGroupEnd (record : GoMap) : Bool := record.length == 0

/-- The type assertion `v.(map[interface{}]interface{})`: the map (`none` when it is nil) and
the flag `ok`. -/
def assertMap : Dyn → Option GoMap × Bool
  | .map m => (some m, true)
  | .nilMap => (none, true)
  | _ => (none, false)

/-- The loop of `extractResourceAndScope` on the named results `(resource, scope)`. -/
def extractLoop : GoMap → Option GoMap × Option GoMap → Option GoMap × Option GoMap
  | [], acc => acc
  | (k, v) :: rest, (resource, scope) =>
    let keyStr := interfaceToString k
    if keyStr = lit "resource" then
      extractLoop rest (if (assertMap v).2 then ((assertMap v).1, scope) else (resource, scope))
    else if keyStr = lit "scope" then
      extractLoop rest (if (assertMap v).2 then (resource, (assertMap v).1) else (resource, scope))
    else extractLoop rest (resource, scope)

/-- Embeds `extractResourceAndScope`. -/
def extractResourceAndScope (record : GoMap) : Option GoMap × Option GoMap :=
  extractLoop record (none, none)

/-! ## out_plugin.go: the record loop of `FLBPluginFlush` -/

/-- The timestamp `ts` that `output.GetRecord` returns. -/
inductive Ts where
  /-- an `output.FLBTime` holding a time -/
  | flbTime (t : Time)
  /-- a `uint64` of Unix seconds -/
  | uint64 (t : Nat)
  /-- a value of any other type -/
  | other

/-- The local state of the loop: the two context maps, the number of `time.Now()` readings
taken so far, and the records built so far, oldest first. -/
structure FlushState where
  currentResource : Option GoMap
  currentScope : Option GoMap
  ticks : Nat
  built : List Record

/-- The state on entry to the loop. -/
def FlushState.init : FlushState :=
  { currentResource := none, currentScope := none, ticks := 0, built := [] }

/-- One iteration of the loop on a decoded pair; `clock k` is the `k`-th reading of
`time.Now()`. -/
def flushStep (unicodeLower : GoString → GoString) (clock : Nat → Time) (st : FlushState)
    (e : Ts × GoMap) : Res FlushState :=
  let record := e.2
  let tt : Time × Nat := match e.1 with
    | .flbTime t => (t, st.ticks)
    | .uint64 t => (toInt64 t * 1000000000, st.ticks)
    | .other => (clock st.ticks, st.ticks + 1)
  if isRecordGroupStart record then
    .ok { st with currentResource := (extractResourceAndScope record).1,
                  currentScope := (extractResourceAndScope record).2, ticks := tt.2 }
  else if isRecordGroupEnd record then
    .ok { st with currentResource := none, currentScope := none, ticks := tt.2 }
  else
    (convertToOTelRecord unicodeLower (clock tt.2) { Timestamp := tt.1, Record := record }
        st.currentResource st.currentScope).bind fun otelRecord =>
      .ok { st with ticks := tt.2 + 1, built := st.built ++ [otelRecord] }

/-- The loop of `FLBPluginFlush` over the decoded pairs. -/
def flushLoop (unicodeLower : GoString → GoString) (clock : Nat → Time) :
    FlushState → List (Ts × GoMap) → Res FlushState
  | st, [] => .ok st
  | st, e :: rest => (flushStep unicodeLower clock st e).bind fun st1 =>
      flushLoop unicodeLower clock st1 rest

/-- The constant `output.FLB_OK`. -/
def FLB_OK : Int := 1

/-- Embeds `FLBPluginFlush` on the pairs that the decoder yields: the status it returns and the
records it built, in order. -/
def FLBPluginFlush (unicodeLower : GoString → GoString) (clock : Nat → Time)
    (stream : List (Ts × GoMap)) : Res (Int × List Record) :=
  (flushLoop unicodeLower clock FlushState.init stream).bind fun st => .ok (FLB_OK, st.built)

/-! ## Predicates used in the statements -/

/-- The numeric value of an integer element; `0` for anything else. -/
def Dyn.intVal : Dyn → Int
  | .int _ v => v
  | _ => 0

/-- An integer, of any of the ten Go integer types, with a value in `0..255`. -/
def Dyn.isByteInt : Dyn → Bool
  | .int _ v => decide (0 ≤ v ∧ v ≤ 255)
  | _ => false

/-- An integer of one of the five types that `isBytes` has a case for (`int`, `int8`, `int64`,
`uint8`, `uint64`), with a value in `0..255`. -/
def Dyn.isHeuristicByte : Dyn → Bool
  | .int .int v => decide (0 ≤ v ∧ v ≤ 255)
  | .int .int8 v => decide (0 ≤ v ∧ v ≤ 255)
  | .int .int64 v => decide (0 ≤ v ∧ v ≤ 255)
  | .int .uint8 v => decide (0 ≤ v ∧ v ≤ 255)
  | .int .uint64 v => decide (0 ≤ v ∧ v ≤ 255)
  | _ => false

/-- An integer element holds a value of its Go type; nothing is asked of other elements. -/
def Dyn.intInType : Dyn → Prop
  | .int k v => k.minVal ≤ v ∧ v ≤ k.maxVal
  | _ => True

/-- A value that may be a key of a Go map: its dynamic type is comparable (not a slice and
not a map). -/
def Dyn.comparable : Dyn → Bool
  | .bytes _ => false
  | .map _ => false
  | .nilMap => false
  | .strMap _ => false
  | .slice _ => false
  | .mapSlice _ => false
  | _ => true

/-- The string keys of the entries of a map, in iteration order. -/
def strKeys : GoMap → List GoString
  | [] => []
  | (.str s, _) :: rest => s :: strKeys rest
  | _ :: rest => strKeys rest

/-- Two facts about every Go map: each key is comparable and no string occurs twice as a
key. -/
def GoMap.KeysOK (m : GoMap) : Prop :=
  (∀ e ∈ m, e.1.comparable = true) ∧ (strKeys m).Nodup

/-- The context side that a value gives: the map when the value is a non-nil map, absent
otherwise. -/
def Dyn.asContext : Dyn → Option GoMap
  | .map m => some m
  | _ => none

/-- The attributes that the returned record holds for a pair of contexts. -/
def heldAttributes (resource scope : Option GoMap) : List (GoString × LogValue) :=
  match scope with
  | some m =>
    sdkAddAttributes
      (match resource with
        | some r => sdkAddAttributes [] (extractAttributes r (lit "resource."))
        | none => [])
      (extractAttributes m (lit "scope."))
  | none =>
    match resource with
    | some r => sdkAddAttributes [] (extractAttributes r (lit "resource."))
    | none => []

/-- The attribute list that the builder passes to the record for a pair of contexts: the
resource attributes followed by the scope attributes. -/
def contextAttributes (resource scope : Option GoMap) : List (GoString × LogValue) :=
  (match resource with
    | some m => extractAttributes m (lit "resource.")
    | none => []) ++
  (match scope with
    | some m => extractAttributes m (lit "scope.")
    | none => [])

/-- The ordinary records of a stream, in stream order, each with the context that the most
recent marker before it set: the extracted pair after a group start, both sides absent after
an empty record; `ctx` is the context on entry. -/
def builderCalls : Option GoMap × Option GoMap → List (Ts × GoMap) →
    List (GoMap × Option GoMap × Option GoMap)
  | _, [] => []
  | ctx, (_, record) :: rest =>
    if isRecordGroupStart record then builderCalls (extractResourceAndScope record) rest
    else if isRecordGroupEnd record then builderCalls (none, none) rest
    else (record, ctx.1, ctx.2) :: builderCalls ctx rest

/-- A record that is neither a group start nor empty. -/
def isOrdinary (record : GoMap) : Bool :=
  !isRecordGroupStart record && !isRecordGroupEnd record

/-- A value of type `string`, `[]byte` or `[]interface{}`: the three types that
`interfaceToString` has a case for. -/
def Dyn.isTextOrSlice : Dyn → Bool
  | .str _ => true
  | .bytes _ => true
  | .slice _ => true
  | _ => false

/-- The six severities that `parseSeverity` names: the first sub-level of each name. -/
def baseSeverities : List Severity :=
  [SeverityTrace, SeverityDebug, SeverityInfo, SeverityWarn, SeverityError, SeverityFatal]

/-- The upper-case name of a base severity. -/
def baseSeverityName (severity : Severity) : GoString :=
  if severity = SeverityTrace then lit "TRACE"
  else if severity = SeverityDebug then lit "DEBUG"
  else if severity = SeverityWarn then lit "WARN"
  else if severity = SeverityError then lit "ERROR"
  else if severity = SeverityFatal then lit "FATAL"
  else lit "INFO"

/-! ## Lemmas on the value converter -/

theorem convertSliceElems_eq_map (s : List Dyn) :
    convertSliceElems s = s.map convertToLogValue := by
  induction s with
  | nil => simp [convertSliceElems]
  | cons v rest ih => simp [convertSliceElems, ih]

theorem convertMapEntries_eq_map (m : GoMap) :
    convertMapEntries m = m.map fun e => (interfaceToString e.1, convertToLogValue e.2) := by
  induction m with
  | nil => simp [convertMapEntries]
  | cons e rest ih => obtain ⟨k, v⟩ := e; simp [convertMapEntries, ih]

theorem convertToLogValue_slice (s : List Dyn) :
    convertToLogValue (.slice s) =
      if isBytes s then .string (interfaceSliceToString s)
      else .slice (s.map convertToLogValue) := by
  rw [convertToLogValue, convertSliceElems_eq_map]

theorem toByte_of_range (v : Int) (h0 : 0 ≤ v) (h1 : v ≤ 255) : toByte v = v.toNat := by
  unfold toByte
  rw [Int.emod_eq_of_lt h0 (by omega)]

theorem isBytes_cons_of_heuristicByte (e : Dyn) (rest : List Dyn)
    (h : e.isHeuristicByte = true) : isBytes (e :: rest) = isBytes rest := by
  cases e with
  | int k v =>
    cases k <;> simp [Dyn.isHeuristicByte] at h <;> simp [isBytes] <;> omega
  | _ => simp [Dyn.isHeuristicByte] at h

theorem sliceByte_of_heuristicByte (e : Dyn) (h : e.isHeuristicByte = true) :
    sliceByte e = e.intVal.toNat := by
  cases e with
  | int k v =>
    cases k <;> simp [Dyn.isHeuristicByte] at h <;>
      simp [sliceByte, Dyn.intVal, toByte_of_range v h.1 h.2]
  | _ => simp [Dyn.isHeuristicByte] at h

theorem isBytes_of_all_heuristicByte (s : List Dyn)
    (h : ∀ e ∈ s, e.isHeuristicByte = true) : isBytes s = true := by
  induction s with
  | nil => rfl
  | cons e rest ih =>
    rw [isBytes_cons_of_heuristicByte e rest (h e (List.mem_cons_self _ _))]
    exact ih fun x hx => h x (List.mem_cons_of_mem _ hx)

theorem isBytes_false_of_mem (s : List Dyn) (hwf : ∀ e ∈ s, e.intInType)
    (e : Dyn) (he : e ∈ s) (hb : e.isByteInt = false) : isBytes s = false := by
  induction s with
  | nil => cases he
  | cons x rest ih =>
    by_cases hx : isBytes (x :: rest) = false
    · exact hx
    · exfalso
      have hxt : isBytes (x :: rest) = true := by simpa using hx
      have hrest : isBytes rest = true := by
        cases x with
        | int k v => cases k <;> simp [isBytes] at hxt <;> first | exact hxt.2 | exact hxt
        | _ => simp [isBytes] at hxt
      rcases List.mem_cons.mp he with rfl | hmem
      · have hw := hwf e (List.mem_cons_self _ _)
        cases e with
        | int k v =>
          cases k <;> simp [isBytes] at hxt <;>
            simp [Dyn.isByteInt] at hb <;>
            simp [Dyn.intInType, IntKind.minVal, IntKind.maxVal] at hw <;> omega
        | _ => simp [isBytes] at hxt
      · have := ih (fun y hy => hwf y (List.mem_cons_of_mem _ hy)) hmem
        rw [hrest] at this
        cases this

/-! ## Claims C1 to C4: the value converter -/

/-- C1 (the code at the failing input): the one-element sequence holding the `int16` 65, an
integer in `0..255`, converts to the Sequence holding Int64 65 and not to the String with
byte 65: `isBytes` has no case for `int16`. -/
theorem C1_int16_sequence_is_not_a_string :
    (Dyn.int .int16 65).isByteInt = true ∧
    convertToLogValue (.slice [.int .int16 65]) = .slice [.int64 65] ∧
    convertToLogValue (.slice [.int .int16 65]) ≠ .string [65] := by
  refine ⟨rfl, rfl, ?_⟩
  intro h
  cases h

/-- For every sequence whose elements are all integers of one of the five types that
`isBytes` has a case for (`int`, `int8`, `int64`, `uint8`, `uint64`) with a value in `0..255`,
`convertToLogValue` returns the String whose bytes are the values of the elements, in order
and of the same length. -/
theorem C1_byte_sequence_converts_to_string (s : List Dyn)
    (h : ∀ e ∈ s, e.isHeuristicByte = true) :
    convertToLogValue (.slice s) = .string (s.map fun e => e.intVal.toNat) ∧
    (s.map fun e => e.intVal.toNat).length = s.length := by
  refine ⟨?_, by simp⟩
  rw [convertToLogValue_slice, isBytes_of_all_heuristicByte s h]
  simp only [if_true, interfaceSliceToString]
  congr 1
  exact List.map_congr_left fun e he => sliceByte_of_heuristicByte e (h e he)

theorem C1_byte_sequence_converts_to_string_witness :
    convertToLogValue (.slice [.int .int 72, .int .uint8 105, .int .uint64 255]) =
        .string ([Dyn.int .int 72, .int .uint8 105, .int .uint64 255].map
          fun e => e.intVal.toNat) ∧
    ([Dyn.int .int 72, .int .uint8 105, .int .uint64 255].map
        fun e => e.intVal.toNat).length = 3 :=
  C1_byte_sequence_converts_to_string [.int .int 72, .int .uint8 105, .int .uint64 255]
    (by simp [Dyn.isHeuristicByte])

/-- C2: for every sequence of well-typed elements that holds at least one element that is not
an integer or is an integer outside `0..255`, `convertToLogValue` returns the Sequence of the
same length whose i-th element is `convertToLogValue` of the i-th input element. -/
theorem C2_non_byte_sequence_converts_elementwise (s : List Dyn)
    (hwf : ∀ e ∈ s, e.intInType) (h : ∃ e ∈ s, e.isByteInt = false) :
    convertToLogValue (.slice s) = .slice (s.map convertToLogValue) ∧
    (s.map convertToLogValue).length = s.length := by
  obtain ⟨e, he, hb⟩ := h
  refine ⟨?_, by simp⟩
  rw [convertToLogValue_slice, isBytes_false_of_mem s hwf e he hb]
  simp

theorem C2_non_byte_sequence_converts_elementwise_witness :
    convertToLogValue (.slice [.int .int 72, .int .int64 256, .str (lit "x")]) =
        .slice ([Dyn.int .int 72, .int .int64 256, .str (lit "x")].map convertToLogValue) ∧
    ([Dyn.int .int 72, .int .int64 256, .str (lit "x")].map convertToLogValue).length = 3 :=
  C2_non_byte_sequence_converts_elementwise [.int .int 72, .int .int64 256, .str (lit "x")]
    (by simp [Dyn.intInType, IntKind.minVal, IntKind.maxVal])
    ⟨.int .int64 256, by simp, by simp [Dyn.isByteInt]⟩

/-- C3: `convertToLogValue` of the empty `[]interface{}` is the String with no bytes, and it
is not the empty Sequence. -/
theorem C3_empty_sequence_is_empty_string :
    convertToLogValue (.slice []) = .string [] ∧
    convertToLogValue (.slice []) ≠ .slice [] := by
  refine ⟨rfl, ?_⟩
  intro h
  cases h

/-- C4 (as stated, refuted): the largest `uint64`, 2^64 - 1, converts to Int64 -1, which is
not numerically equal to the input. -/
theorem C4_max_uint64_converts_to_minus_one :
    (Dyn.int .uint64 (2 ^ 64 - 1)).intInType ∧
    convertToLogValue (.int .uint64 (2 ^ 64 - 1)) = .int64 (-1) ∧
    convertToLogValue (.int .uint64 (2 ^ 64 - 1)) ≠ .int64 (2 ^ 64 - 1) := by
  have hc : convertToLogValue (.int .uint64 (2 ^ 64 - 1)) = .int64 (toInt64 (2 ^ 64 - 1)) := rfl
  have hv : toInt64 (2 ^ 64 - 1) = -1 := by norm_num [toInt64]
  rw [hc, hv]
  refine ⟨by simp [Dyn.intInType, IntKind.minVal, IntKind.maxVal], rfl, ?_⟩
  intro h
  injection h with h3
  omega

/-- C4 (amended): for every integer of any of the ten Go integer types whose value is at most
2^63 - 1 (every value of a signed type and of `uint8`, `uint16`, `uint32`, and the values of
`uint` and `uint64` below 2^63), `convertToLogValue` returns the Int64 of the same numeric
value; for every bool and every string it returns the same bool or string. -/
theorem C4_scalars_convert_faithfully (k : IntKind) (v : Int) (b : Bool) (t : GoString)
    (hlo : k.minVal ≤ v) (hhi : v ≤ k.maxVal) (h63 : v ≤ 2 ^ 63 - 1) :
    convertToLogValue (.int k v) = .int64 v ∧
    convertToLogValue (.bool b) = .bool b ∧
    convertToLogValue (.str t) = .string t := by
  refine ⟨?_, rfl, rfl⟩
  have hmin : -(2 ^ 63) ≤ v := by
    cases k <;> simp [IntKind.minVal] at hlo <;> omega
  have hw : toInt64 v = v := by
    unfold toInt64
    rw [Int.emod_eq_of_lt (by omega) (by omega)]
    omega
  cases k <;> simp [convertToLogValue, hw]

theorem C4_scalars_convert_faithfully_witness :
    convertToLogValue (.int .uint32 4294967295) = .int64 4294967295 ∧
    convertToLogValue (.bool true) = .bool true ∧
    convertToLogValue (.str (lit "boom")) = .string (lit "boom") :=
  C4_scalars_convert_faithfully .uint32 4294967295 true (lit "boom")
    (by decide) (by decide) (by decide)

/-! ## Lemmas on the severity classifier -/

theorem getMapValue_of_string_key (m : GoMap) (key : GoString) (val : Dyn)
    (h : mapIndexString m key = some val) : getMapValue m key = .ok (some val) := by
  simp [getMapValue, h]

theorem getMapValue_panics_without_string_key (m : GoMap) (key : GoString)
    (h : mapIndexString m key = none) : getMapValue m key = .panic (unhashableMessage m) := by
  simp [getMapValue, h, mapIndexBytes, Res.bind]

theorem determineSeverity_of_level (ul : GoString → GoString) (record : GoMap) (val : Dyn)
    (h : mapIndexString record (lit "level") = some val) :
    determineSeverity ul record =
      .ok (parseSeverity (stringsToLower ul (interfaceToString val))) := by
  simp [determineSeverity, levelKeys, determineSeverityLoop,
    getMapValue_of_string_key record _ val h, Res.bind]

theorem determineSeverity_panics_without_level (ul : GoString → GoString) (record : GoMap)
    (h : mapIndexString record (lit "level") = none) :
    determineSeverity ul record = .panic (unhashableMessage record) := by
  simp [determineSeverity, levelKeys, determineSeverityLoop,
    getMapValue_panics_without_string_key record _ h, Res.bind]

/-! ## Lemmas on record groups -/

theorem str_of_comparable_named (k : Dyn) (s : GoString) (hk : k.comparable = true)
    (hs : s ≠ []) (h : interfaceToString k = s) : k = .str s := by
  cases k <;> simp_all [Dyn.comparable, interfaceToString]

theorem mem_strKeys (m : GoMap) (s : GoString) (v : Dyn) (h : (Dyn.str s, v) ∈ m) :
    s ∈ strKeys m := by
  induction m with
  | nil => cases h
  | cons e rest ih =>
    obtain ⟨k, w⟩ := e
    rcases List.mem_cons.mp h with heq | hmem
    · cases heq
      simp [strKeys]
    · have := ih hmem
      cases k <;> simp [strKeys, this]

theorem KeysOK_tail (e : Dyn × Dyn) (rest : GoMap) (h : GoMap.KeysOK (e :: rest)) :
    GoMap.KeysOK rest := by
  obtain ⟨k, w⟩ := e
  refine ⟨fun x hx => h.1 x (List.mem_cons_of_mem _ hx), ?_⟩
  have h2 := h.2
  cases k <;> simp [strKeys] at h2 <;> first | exact h2.2 | exact h2

theorem no_second_named (k v : Dyn) (rest : GoMap) (s : GoString) (hs : s ≠ [])
    (h : GoMap.KeysOK ((k, v) :: rest)) (hn : interfaceToString k = s) :
    ∀ e ∈ rest, interfaceToString e.1 ≠ s := by
  intro e he hne
  have hk := str_of_comparable_named k s (h.1 (k, v) (List.mem_cons_self _ _)) hs hn
  have hek := str_of_comparable_named e.1 s (h.1 e (List.mem_cons_of_mem _ he)) hs hne
  have hmem : s ∈ strKeys rest := mem_strKeys rest s e.2 (by rw [← hek]; exact he)
  have h2 := h.2
  rw [hk] at h2
  simp [strKeys] at h2
  exact h2.1 hmem

theorem head_not_named (k v : Dyn) (rest : GoMap) (s : GoString) (hs : s ≠ [])
    (h : GoMap.KeysOK ((k, v) :: rest)) (e : Dyn × Dyn) (he : e ∈ rest)
    (hne : interfaceToString e.1 = s) : interfaceToString k ≠ s := by
  intro hn
  exact no_second_named k v rest s hs h hn e he hne

theorem lit_resource_ne_nil : lit "resource" ≠ [] := by decide

theorem lit_scope_ne_nil : lit "scope" ≠ [] := by decide

theorem lit_resource_ne_scope : lit "resource" ≠ lit "scope" := by decide

theorem groupStartLoop_eq (m : GoMap) (acc : Bool × Bool) :
    groupStartLoop m acc =
      (acc.1 || m.any (fun e => decide (interfaceToString e.1 = lit "resource")),
       acc.2 || m.any (fun e => decide (interfaceToString e.1 = lit "scope"))) := by
  induction m generalizing acc with
  | nil => simp [groupStartLoop]
  | cons e rest ih =>
    obtain ⟨k, v⟩ := e
    obtain ⟨a, b⟩ := acc
    simp only [groupStartLoop, ih, List.any_cons]
    have hd1 : decide (lit "resource" = lit "scope") = false := by decide
    have hd2 : decide (lit "scope" = lit "resource") = false := by decide
    by_cases h1 : interfaceToString k = lit "resource" <;>
      by_cases h2 : interfaceToString k = lit "scope" <;> simp [h1, h2, hd1, hd2]

theorem isRecordGroupStart_iff (record : GoMap) :
    isRecordGroupStart record = true ↔
      (∃ e ∈ record, interfaceToString e.1 = lit "resource") ∧
      (∃ e ∈ record, interfaceToString e.1 = lit "scope") := by
  simp [isRecordGroupStart, groupStartLoop_eq]

theorem ite_pair_fst {α β : Type} (c : Prop) [Decidable c] (r : α) (x y : β) :
    (if c then (r, x) else (r, y)).1 = r := by
  split <;> rfl

theorem ite_pair_snd {α β : Type} (c : Prop) [Decidable c] (x y : α) (s : β) :
    (if c then (x, s) else (y, s)).2 = s := by
  split <;> rfl

theorem extractLoop_fst_of_none (m : GoMap) (acc : Option GoMap × Option GoMap)
    (h : ∀ e ∈ m, interfaceToString e.1 ≠ lit "resource") :
    (extractLoop m acc).1 = acc.1 := by
  induction m generalizing acc with
  | nil => simp [extractLoop]
  | cons e rest ih =>
    obtain ⟨k, v⟩ := e
    obtain ⟨r, s⟩ := acc
    have hk : interfaceToString k ≠ lit "resource" := h (k, v) (List.mem_cons_self _ _)
    have hrest : ∀ e ∈ rest, interfaceToString e.1 ≠ lit "resource" :=
      fun x hx => h x (List.mem_cons_of_mem _ hx)
    simp only [extractLoop, hk, if_false]
    split <;> rw [ih _ hrest]
    exact ite_pair_fst _ _ _ _

theorem extractLoop_snd_of_none (m : GoMap) (acc : Option GoMap × Option GoMap)
    (h : ∀ e ∈ m, interfaceToString e.1 ≠ lit "scope") :
    (extractLoop m acc).2 = acc.2 := by
  induction m generalizing acc with
  | nil => simp [extractLoop]
  | cons e rest ih =>
    obtain ⟨k, v⟩ := e
    obtain ⟨r, s⟩ := acc
    have hk : interfaceToString k ≠ lit "scope" := h (k, v) (List.mem_cons_self _ _)
    have hrest : ∀ e ∈ rest, interfaceToString e.1 ≠ lit "scope" :=
      fun x hx => h x (List.mem_cons_of_mem _ hx)
    simp only [extractLoop]
    split
    · rw [ih _ hrest]
      exact ite_pair_snd _ _ _ _
    · rw [ih _ hrest]

theorem extractLoop_fst_of_mem (m : GoMap) (hk : m.KeysOK) (k v : Dyn) (hmem : (k, v) ∈ m)
    (hn : interfaceToString k = lit "resource") (acc : Option GoMap × Option GoMap) :
    (extractLoop m acc).1 = if (assertMap v).2 then (assertMap v).1 else acc.1 := by
  induction m generalizing acc with
  | nil => cases hmem
  | cons e rest ih =>
    obtain ⟨k0, v0⟩ := e
    obtain ⟨r, s⟩ := acc
    rcases List.mem_cons.mp hmem with heq | hrest
    · cases heq
      have hnone := no_second_named k v rest _ lit_resource_ne_nil hk hn
      simp only [extractLoop, hn, if_true]
      rw [extractLoop_fst_of_none rest _ hnone]
      split <;> rfl
    · have hk0 : interfaceToString k0 ≠ lit "resource" :=
        head_not_named k0 v0 rest _ lit_resource_ne_nil hk (k, v) hrest hn
      simp only [extractLoop, hk0, if_false]
      split <;> rw [ih (KeysOK_tail _ _ hk) hrest]
      rw [ite_pair_fst]

theorem extractLoop_snd_of_mem (m : GoMap) (hk : m.KeysOK) (k v : Dyn) (hmem : (k, v) ∈ m)
    (hn : interfaceToString k = lit "scope") (acc : Option GoMap × Option GoMap) :
    (extractLoop m acc).2 = if (assertMap v).2 then (assertMap v).1 else acc.2 := by
  induction m generalizing acc with
  | nil => cases hmem
  | cons e rest ih =>
    obtain ⟨k0, v0⟩ := e
    obtain ⟨r, s⟩ := acc
    have hns : interfaceToString k ≠ lit "resource" := by
      rw [hn]; exact fun h => lit_resource_ne_scope h.symm
    rcases List.mem_cons.mp hmem with heq | hrest
    · cases heq
      have hnone := no_second_named k v rest _ lit_scope_ne_nil hk hn
      have hsr : ¬ (lit "scope" = lit "resource") := fun h => lit_resource_ne_scope h.symm
      simp only [extractLoop, hn, hsr, if_true, if_false]
      rw [extractLoop_snd_of_none rest _ hnone]
      split <;> rfl
    · have hk0 : interfaceToString k0 ≠ lit "scope" :=
        head_not_named k0 v0 rest _ lit_scope_ne_nil hk (k, v) hrest hn
      simp only [extractLoop, hk0, if_false]
      split
      · rw [ih (KeysOK_tail _ _ hk) hrest, ite_pair_snd]
      · rw [ih (KeysOK_tail _ _ hk) hrest]

theorem assertMap_eq_asContext (v : Dyn) :
    (if (assertMap v).2 then (assertMap v).1 else none) = v.asContext := by
  cases v <;> simp [assertMap, Dyn.asContext]

theorem parseSeverity_table (l : GoString) :
    (parseSeverity l = SeverityTrace ↔ l = lit "trace") ∧
    (parseSeverity l = SeverityDebug ↔ l = lit "debug") ∧
    (parseSeverity l = SeverityWarn ↔ l = lit "warn" ∨ l = lit "warning") ∧
    (parseSeverity l = SeverityError ↔ l = lit "error" ∨ l = lit "err") ∧
    (parseSeverity l = SeverityFatal ↔
      l = lit "fatal" ∨ l = lit "critical" ∨ l = lit "panic" ∨ l = lit "emergency") ∧
    (parseSeverity l = SeverityInfo ↔
      ¬ (l = lit "trace" ∨ l = lit "debug" ∨ l = lit "warn" ∨ l = lit "warning" ∨
         l = lit "error" ∨ l = lit "err" ∨ l = lit "fatal" ∨ l = lit "critical" ∨
         l = lit "panic" ∨ l = lit "emergency")) := by
  unfold parseSeverity
  split_ifs with h1 h2 h3 h4 h5 h6
  · subst h1; decide
  · subst h2; decide
  · rcases h3 with h | h <;> subst h <;> decide
  · rcases h4 with h | h <;> subst h <;> decide
  · rcases h5 with h | h <;> subst h <;> decide
  · rcases h6 with h | h | h | h <;> subst h <;> decide
  · simp_all [SeverityTrace, SeverityDebug, SeverityInfo, SeverityWarn, SeverityError,
      SeverityFatal]

/-! ## Claims C5 to C8: the severity classifier and the record builder -/

/-- C5 (the code at the failing input): on the record `{"severity": "error"}`, whose first
present alias is `severity` with a value that parses to Error, `determineSeverity` panics in
the `[]byte` lookup of the alias `level`; the record with `level: "warn"` and
`severity: "error"` classifies as Warn. -/
theorem C5_determineSeverity_panics_when_level_is_absent (ul : GoString → GoString) :
    determineSeverity ul [(.str (lit "severity"), .str (lit "error"))] =
      .panic unhashablePanic ∧
    parseSeverity (stringsToLower ul (interfaceToString (.str (lit "error")))) =
      SeverityError ∧
    determineSeverity ul [(.str (lit "level"), .str (lit "warn")),
      (.str (lit "severity"), .str (lit "error"))] = .ok SeverityWarn :=
  ⟨rfl, rfl, rfl⟩

/-- C6: when the level value found in a record is the string `s`, the severity is
`parseSeverity` of the lower-cased `s`, where lower-casing an ASCII string moves each letter
`A`..`Z` to `a`..`z` and keeps every other byte; a lower-cased text `l` classifies as Trace iff
it is "trace", Debug iff "debug", Warn iff "warn" or "warning", Error iff "error" or "err",
Fatal iff "fatal", "critical", "panic" or "emergency", and Info iff it is any other text; so
"TRACE", "Warning" or "eMeRgEnCy" classify as their lower-case forms and "Banana" as Info. -/
theorem C6_severity_table (ul : GoString → GoString) (record : GoMap) (s l : GoString)
    (h : mapIndexString record (lit "level") = some (.str s)) :
    determineSeverity ul record = .ok (parseSeverity (stringsToLower ul s)) ∧
    ((∀ c ∈ s, c < 128) →
      determineSeverity ul record =
        .ok (parseSeverity (s.map fun c => if 65 ≤ c ∧ c ≤ 90 then c + 32 else c))) ∧
    (parseSeverity l = SeverityTrace ↔ l = lit "trace") ∧
    (parseSeverity l = SeverityDebug ↔ l = lit "debug") ∧
    (parseSeverity l = SeverityWarn ↔ l = lit "warn" ∨ l = lit "warning") ∧
    (parseSeverity l = SeverityError ↔ l = lit "error" ∨ l = lit "err") ∧
    (parseSeverity l = SeverityFatal ↔
      l = lit "fatal" ∨ l = lit "critical" ∨ l = lit "panic" ∨ l = lit "emergency") ∧
    (parseSeverity l = SeverityInfo ↔
      ¬ (l = lit "trace" ∨ l = lit "debug" ∨ l = lit "warn" ∨ l = lit "warning" ∨
         l = lit "error" ∨ l = lit "err" ∨ l = lit "fatal" ∨ l = lit "critical" ∨
         l = lit "panic" ∨ l = lit "emergency")) ∧
    [lit "TRACE", lit "Debug", lit "INFO", lit "Information", lit "WARN", lit "Warning",
      lit "ERROR", lit "Err", lit "FATAL", lit "Critical", lit "PANIC", lit "eMeRgEnCy",
      lit "Banana", lit "level", lit ""].map
        (fun t => determineSeverity ul [(.str (lit "level"), .str t)]) =
      [.ok SeverityTrace, .ok SeverityDebug, .ok SeverityInfo, .ok SeverityInfo,
       .ok SeverityWarn, .ok SeverityWarn, .ok SeverityError, .ok SeverityError,
       .ok SeverityFatal, .ok SeverityFatal, .ok SeverityFatal, .ok SeverityFatal,
       .ok SeverityInfo, .ok SeverityInfo, .ok SeverityInfo] := by
  refine ⟨determineSeverity_of_level ul record (.str s) h, ?_, ?_⟩
  · intro hs
    rw [determineSeverity_of_level ul record (.str s) h]
    have hall : s.all (fun c => decide (c < 128)) = true := by
      simpa [List.all_eq_true] using hs
    simp only [interfaceToString, stringsToLower, hall, if_true]
    rfl
  · have ht := parseSeverity_table l
    exact ⟨ht.1, ht.2.1, ht.2.2.1, ht.2.2.2.1, ht.2.2.2.2.1, ht.2.2.2.2.2, rfl⟩

theorem C6_severity_table_witness :
    mapIndexString [(.str (lit "msg"), .str (lit "boom")),
        (.str (lit "level"), .str (lit "WARNING"))] (lit "level") =
      some (.str (lit "WARNING")) ∧
    (determineSeverity id [(.str (lit "msg"), .str (lit "boom")),
        (.str (lit "level"), .str (lit "WARNING"))] =
      .ok (parseSeverity (stringsToLower id (lit "WARNING"))) ∧
    ((∀ c ∈ lit "WARNING", c < 128) →
      determineSeverity id [(.str (lit "msg"), .str (lit "boom")),
          (.str (lit "level"), .str (lit "WARNING"))] =
        .ok (parseSeverity
          ((lit "WARNING").map fun c => if 65 ≤ c ∧ c ≤ 90 then c + 32 else c))) ∧
    (parseSeverity (lit "warning") = SeverityTrace ↔ lit "warning" = lit "trace") ∧
    (parseSeverity (lit "warning") = SeverityDebug ↔ lit "warning" = lit "debug") ∧
    (parseSeverity (lit "warning") = SeverityWarn ↔ lit "warning" = lit "warn" ∨ lit "warning" = lit "warning") ∧
    (parseSeverity (lit "warning") = SeverityError ↔ lit "warning" = lit "error" ∨ lit "warning" = lit "err") ∧
    (parseSeverity (lit "warning") = SeverityFatal ↔
      lit "warning" = lit "fatal" ∨ lit "warning" = lit "critical" ∨ lit "warning" = lit "panic" ∨ lit "warning" = lit "emergency") ∧
    (parseSeverity (lit "warning") = SeverityInfo ↔
      ¬ (lit "warning" = lit "trace" ∨ lit "warning" = lit "debug" ∨ lit "warning" = lit "warn" ∨ lit "warning" = lit "warning" ∨
         lit "warning" = lit "error" ∨ lit "warning" = lit "err" ∨ lit "warning" = lit "fatal" ∨ lit "warning" = lit "critical" ∨
         lit "warning" = lit "panic" ∨ lit "warning" = lit "emergency")) ∧
    [lit "TRACE", lit "Debug", lit "INFO", lit "Information", lit "WARN", lit "Warning",
      lit "ERROR", lit "Err", lit "FATAL", lit "Critical", lit "PANIC", lit "eMeRgEnCy",
      lit "Banana", lit "level", lit ""].map
        (fun t => determineSeverity id [(.str (lit "level"), .str t)]) =
      [.ok SeverityTrace, .ok SeverityDebug, .ok SeverityInfo, .ok SeverityInfo,
       .ok SeverityWarn, .ok SeverityWarn, .ok SeverityError, .ok SeverityError,
       .ok SeverityFatal, .ok SeverityFatal, .ok SeverityFatal, .ok SeverityFatal,
       .ok SeverityInfo, .ok SeverityInfo, .ok SeverityInfo]) :=
  ⟨rfl, C6_severity_table id [(.str (lit "msg"), .str (lit "boom")),
      (.str (lit "level"), .str (lit "WARNING"))] (lit "WARNING") (lit "warning") rfl⟩

/-- The record of the witness above, with the level text "WARNING", classifies as Warn. -/
theorem determineSeverity_upper_case_warning :
    determineSeverity id [(.str (lit "msg"), .str (lit "boom")),
        (.str (lit "level"), .str (lit "WARNING"))] = .ok SeverityWarn :=
  rfl

/-- C7 (the code at the failing input): on the record `{"msg": "hello"}`, in which none of
the five aliases is the string form of a key, and on the empty record, `determineSeverity`
panics instead of returning Info (on the empty record with the message of a lookup in a map
without entries). -/
theorem C7_determineSeverity_panics_without_alias (ul : GoString → GoString) :
    levelKeys.all (fun key =>
      (rangeLookup [(.str (lit "msg"), .str (lit "hello"))] key).isNone) = true ∧
    determineSeverity ul [(.str (lit "msg"), .str (lit "hello"))] = .panic unhashablePanic ∧
    determineSeverity ul [] = .panic unhashableEmptyPanic :=
  ⟨by decide, rfl, rfl⟩

/-- C8 (the code at the failing input): on the record `{"msg": "hello"}` with both contexts
absent, `convertToOTelRecord` panics and returns no record, for every timestamp and every
reading of the clock; `convertToLogValue` of the same record returns its key-value list. -/
theorem C8_convertToOTelRecord_panics (ul : GoString → GoString) (now ts : Time) :
    convertToOTelRecord ul now
      { Timestamp := ts, Record := [(.str (lit "msg"), .str (lit "hello"))] } none none =
      .panic unhashablePanic ∧
    convertToLogValue (.map [(.str (lit "msg"), .str (lit "hello"))]) =
      .map [(lit "msg", .string (lit "hello"))] :=
  ⟨rfl, rfl⟩

/-! ## Lemmas on the record loop -/

theorem convertToOTelRecord_of_level (ul : GoString → GoString) (now : Time) (entry : LogEntry)
    (resource scope : Option GoMap) (val : Dyn)
    (h : mapIndexString entry.Record (lit "level") = some val) :
    convertToOTelRecord ul now entry resource scope =
      .ok { timestamp := entry.Timestamp, observedTimestamp := now,
            severity := parseSeverity (stringsToLower ul (interfaceToString val)),
            severityText :=
              severityToText (parseSeverity (stringsToLower ul (interfaceToString val))),
            body := sdkSetBody (convertToLogValue (.map entry.Record)),
            attributes := heldAttributes resource scope } := by
  simp only [convertToOTelRecord, determineSeverity_of_level ul _ val h, Res.bind]
  cases resource <;> cases scope <;> rfl

theorem builderCalls_length (ctx : Option GoMap × Option GoMap) (stream : List (Ts × GoMap)) :
    (builderCalls ctx stream).length = (stream.filter fun e => isOrdinary e.2).length := by
  induction stream generalizing ctx with
  | nil => rfl
  | cons e rest ih =>
    obtain ⟨ts, record⟩ := e
    by_cases hs : isRecordGroupStart record = true
    · simp [builderCalls, isOrdinary, hs, ih]
    · by_cases he : isRecordGroupEnd record = true
      · simp [builderCalls, isOrdinary, hs, he, ih]
      · simp [builderCalls, isOrdinary, hs, he, ih]

theorem flushStep_group_start (ul : GoString → GoString) (clock : Nat → Time)
    (st : FlushState) (ts : Ts) (record : GoMap) (hs : isRecordGroupStart record = true) :
    ∃ st1, flushStep ul clock st (ts, record) = .ok st1 ∧ st1.built = st.built ∧
      (st1.currentResource, st1.currentScope) = extractResourceAndScope record := by
  simp only [flushStep, hs, if_true]
  exact ⟨_, rfl, rfl, rfl⟩

theorem flushStep_group_end (ul : GoString → GoString) (clock : Nat → Time)
    (st : FlushState) (ts : Ts) (record : GoMap) (hs : isRecordGroupStart record = false)
    (he : isRecordGroupEnd record = true) :
    ∃ st1, flushStep ul clock st (ts, record) = .ok st1 ∧ st1.built = st.built ∧
      (st1.currentResource, st1.currentScope) = (none, none) := by
  simp only [flushStep, hs, he, Bool.false_eq_true, if_true, if_false]
  exact ⟨_, rfl, rfl, rfl⟩

theorem flushStep_ordinary (ul : GoString → GoString) (clock : Nat → Time)
    (st : FlushState) (ts : Ts) (record : GoMap) (val : Dyn)
    (hs : isRecordGroupStart record = false) (he : isRecordGroupEnd record = false)
    (hval : mapIndexString record (lit "level") = some val) :
    ∃ st1 r, flushStep ul clock st (ts, record) = .ok st1 ∧ st1.built = st.built ++ [r] ∧
      (st1.currentResource, st1.currentScope) = (st.currentResource, st.currentScope) ∧
      r.body = sdkSetBody (convertToLogValue (.map record)) ∧
      r.attributes = heldAttributes st.currentResource st.currentScope := by
  simp only [flushStep, hs, he, Bool.false_eq_true, if_false]
  rw [convertToOTelRecord_of_level ul _ _ _ _ val hval]
  exact ⟨_, _, rfl, rfl, rfl, rfl, rfl⟩

/-- On a stream in which every ordinary record has the string key `level`, the loop completes
and appends one record per ordinary record, in stream order, each holding the body of its
record and the attributes of the context that the most recent marker set. -/
theorem flushLoop_of_levelled_stream (ul : GoString → GoString) (clock : Nat → Time)
    (stream : List (Ts × GoMap)) (st : FlushState)
    (h : ∀ e ∈ stream, isOrdinary e.2 = true → mapIndexString e.2 (lit "level") ≠ none) :
    ∃ st1, flushLoop ul clock st stream = .ok st1 ∧
      st1.built.map (fun r => (r.body, r.attributes)) =
        st.built.map (fun r => (r.body, r.attributes)) ++
          (builderCalls (st.currentResource, st.currentScope) stream).map
            (fun c => (sdkSetBody (convertToLogValue (.map c.1)),
              heldAttributes c.2.1 c.2.2)) := by
  induction stream generalizing st with
  | nil => exact ⟨st, rfl, by simp [builderCalls]⟩
  | cons e rest ih =>
    obtain ⟨ts, record⟩ := e
    have hrest : ∀ x ∈ rest, isOrdinary x.2 = true → mapIndexString x.2 (lit "level") ≠ none :=
      fun x hx => h x (List.mem_cons_of_mem _ hx)
    by_cases hs : isRecordGroupStart record = true
    · obtain ⟨st1, hstep, hb, hc⟩ := flushStep_group_start ul clock st ts record hs
      obtain ⟨st2, hrun, hbuilt⟩ := ih st1 hrest
      refine ⟨st2, by simp only [flushLoop, hstep, Res.bind, hrun], ?_⟩
      rw [hbuilt, hb, hc]
      simp [builderCalls, hs]
    · have hs0 : isRecordGroupStart record = false := by simpa using hs
      by_cases he : isRecordGroupEnd record = true
      · obtain ⟨st1, hstep, hb, hc⟩ := flushStep_group_end ul clock st ts record hs0 he
        obtain ⟨st2, hrun, hbuilt⟩ := ih st1 hrest
        refine ⟨st2, by simp only [flushLoop, hstep, Res.bind, hrun], ?_⟩
        rw [hbuilt, hb, hc]
        simp [builderCalls, hs0, he]
      · have he0 : isRecordGroupEnd record = false := by simpa using he
        have hord : isOrdinary record = true := by simp [isOrdinary, hs0, he0]
        have hl := h (ts, record) (List.mem_cons_self _ _) hord
        obtain ⟨val, hval⟩ := Option.ne_none_iff_exists'.mp hl
        obtain ⟨st1, r, hstep, hb, hc, hbody, hattr⟩ :=
          flushStep_ordinary ul clock st ts record val hs0 he0 hval
        obtain ⟨st2, hrun, hbuilt⟩ := ih st1 hrest
        refine ⟨st2, by simp only [flushLoop, hstep, Res.bind, hrun], ?_⟩
        rw [hbuilt, hb, hc]
        simp [builderCalls, hs0, he0, hbody, hattr]

/-! ## Claims C9 and C10: the record loop -/

/-- C9: for every prior state and every record (a map: comparable keys, no string twice as a
key) that has an entry whose key is named `resource`, with value `v`, and an entry whose key
is named `scope`, with value `w`, one iteration of the loop completes, builds no record, and
leaves as context the map `v` or nothing when `v` is not a map, and the map `w` or nothing
when `w` is not a map, whatever the prior context was. -/
theorem C9_group_start_sets_context (ul : GoString → GoString) (clock : Nat → Time)
    (st : FlushState) (ts : Ts) (record : GoMap) (kr v ks w : Dyn)
    (hkeys : record.KeysOK)
    (hr : (kr, v) ∈ record) (hrn : interfaceToString kr = lit "resource")
    (hs : (ks, w) ∈ record) (hsn : interfaceToString ks = lit "scope") :
    ∃ st1, flushStep ul clock st (ts, record) = .ok st1 ∧
      st1.built = st.built ∧
      st1.currentResource = v.asContext ∧
      st1.currentScope = w.asContext := by
  have hstart : isRecordGroupStart record = true :=
    (isRecordGroupStart_iff record).mpr ⟨⟨(kr, v), hr, hrn⟩, ⟨(ks, w), hs, hsn⟩⟩
  have h1 : (extractResourceAndScope record).1 = v.asContext := by
    rw [extractResourceAndScope, extractLoop_fst_of_mem record hkeys kr v hr hrn]
    exact assertMap_eq_asContext v
  have h2 : (extractResourceAndScope record).2 = w.asContext := by
    rw [extractResourceAndScope, extractLoop_snd_of_mem record hkeys ks w hs hsn]
    exact assertMap_eq_asContext w
  simp only [flushStep, hstart, if_true]
  exact ⟨_, rfl, rfl, h1, h2⟩

theorem C9_group_start_sets_context_witness :
    ∃ st1, flushStep id (fun _ => 0)
        { currentResource := some [(.str (lit "env"), .str (lit "dev"))],
          currentScope := some [], ticks := 0, built := [] }
        (Ts.uint64 7,
          [(.str (lit "resource"), .map [(.str (lit "env"), .str (lit "prod"))]),
           (.str (lit "note"), .bool true),
           (.str (lit "scope"), .int .int64 5)]) = .ok st1 ∧
      st1.built = [] ∧
      st1.currentResource = (Dyn.map [(.str (lit "env"), .str (lit "prod"))]).asContext ∧
      st1.currentScope = (Dyn.int .int64 5).asContext :=
  C9_group_start_sets_context id (fun _ => 0)
    { currentResource := some [(.str (lit "env"), .str (lit "dev"))],
      currentScope := some [], ticks := 0, built := [] }
    (Ts.uint64 7)
    [(.str (lit "resource"), .map [(.str (lit "env"), .str (lit "prod"))]),
     (.str (lit "note"), .bool true),
     (.str (lit "scope"), .int .int64 5)]
    (.str (lit "resource")) (.map [(.str (lit "env"), .str (lit "prod"))])
    (.str (lit "scope")) (.int .int64 5)
    ⟨by simp [Dyn.comparable], by decide⟩
    (by simp) rfl (by simp) rfl

/-- C10 (the code at the failing input): on the stream of the single ordinary record
`{"msg": "hello"}`, which is neither a group start nor empty and is due one record with both
contexts absent, `FLBPluginFlush` panics in the record builder and produces no record. -/
theorem C10_flush_panics_on_ordinary_record (ul : GoString → GoString) (clock : Nat → Time) :
    isOrdinary [(.str (lit "msg"), .str (lit "hello"))] = true ∧
    builderCalls (none, none) [(.flbTime 0, [(.str (lit "msg"), .str (lit "hello"))])] =
      [([(.str (lit "msg"), .str (lit "hello"))], none, none)] ∧
    FLBPluginFlush ul clock [(.flbTime 0, [(.str (lit "msg"), .str (lit "hello"))])] =
      .panic unhashablePanic :=
  ⟨rfl, rfl, rfl⟩

/-! ## Claims C11 and C12: two streams -/

theorem perm_pair {α : Type} {a b : α} {l : List α} (h : l.Perm [a, b]) :
    l = [a, b] ∨ l = [b, a] := by
  have hlen := h.length_eq
  match l, hlen with
  | [x, y], _ =>
    have hx : x ∈ [a, b] := h.subset (List.mem_cons_self _ _)
    have hy : y ∈ [a, b] := h.subset (List.mem_cons_of_mem _ (List.mem_cons_self _ _))
    have ha : a ∈ [x, y] := h.symm.subset (List.mem_cons_self _ _)
    have hb : b ∈ [x, y] := h.symm.subset (List.mem_cons_of_mem _ (List.mem_cons_self _ _))
    simp only [List.mem_cons, List.mem_singleton, List.not_mem_nil, or_false] at hx hy ha hb
    rcases hx with rfl | rfl <;> rcases hy with rfl | rfl <;> simp_all

/-- C11 (the code at the failing input): on the stream
`[{resource: {env: "prod"}, scope: {name: "svc"}}, {level: "error", msg: "boom"}, {}]`
processed from the initial state, for every timestamp, the flush returns OK with exactly one
record whose SeverityText is "ERROR" and whose body has `("msg", String "boom")`; but the
record holds the attributes `("resource.env", String "")` and `("scope.name", String "")`:
the zero-value record cuts every string attribute value to no bytes, so it contains neither
`("resource.env", String "prod")` nor `("scope.name", String "svc")`. -/
theorem C11_grouped_stream_attribute_values_are_cut (ul : GoString → GoString)
    (clock : Nat → Time) (t1 t2 t3 : Ts) :
    ∃ r, FLBPluginFlush ul clock
        [(t1, [(.str (lit "resource"), .map [(.str (lit "env"), .str (lit "prod"))]),
               (.str (lit "scope"), .map [(.str (lit "name"), .str (lit "svc"))])]),
         (t2, [(.str (lit "level"), .str (lit "error")), (.str (lit "msg"), .str (lit "boom"))]),
         (t3, [])] = .ok (FLB_OK, [r]) ∧
      r.severityText = lit "ERROR" ∧
      r.body = .map [(lit "level", .string (lit "error")), (lit "msg", .string (lit "boom"))] ∧
      contextAttributes (some [(.str (lit "env"), .str (lit "prod"))])
          (some [(.str (lit "name"), .str (lit "svc"))]) =
        [(lit "resource.env", .string (lit "prod")), (lit "scope.name", .string (lit "svc"))] ∧
      r.attributes = [(lit "resource.env", .string []), (lit "scope.name", .string [])] ∧
      (lit "resource.env", LogValue.string (lit "prod")) ∉ r.attributes ∧
      (lit "scope.name", LogValue.string (lit "svc")) ∉ r.attributes := by
  refine ⟨_, rfl, rfl, rfl, rfl, rfl, ?_, ?_⟩
  · intro h
    rcases List.mem_cons.mp h with h | h
    · cases h
    · rcases List.mem_cons.mp h with h | h
      · cases h
      · cases h
  · intro h
    rcases List.mem_cons.mp h with h | h
    · cases h
    · rcases List.mem_cons.mp h with h | h
      · cases h
      · cases h

/-- C12 (the code at the failing input): on the stream `[{lvl: "debug", n: 5}]`, in either
iteration order of the record, `FLBPluginFlush` panics in the `[]byte` lookup of the alias
`level` and yields no record; the record is ordinary, its level text parses to Debug and its
body would be the two-entry key-value list. -/
theorem C12_ungrouped_stream_panics (ul : GoString → GoString) (clock : Nat → Time) (t : Ts) :
    FLBPluginFlush ul clock
      [(t, [(.str (lit "lvl"), .str (lit "debug")), (.str (lit "n"), .int .int64 5)])] =
      .panic unhashablePanic ∧
    FLBPluginFlush ul clock
      [(t, [(.str (lit "n"), .int .int64 5), (.str (lit "lvl"), .str (lit "debug"))])] =
      .panic unhashablePanic ∧
    isOrdinary [(.str (lit "lvl"), .str (lit "debug")), (.str (lit "n"), .int .int64 5)] =
      true ∧
    severityToText (parseSeverity (stringsToLower ul (lit "debug"))) = lit "DEBUG" ∧
    convertToLogValue
        (.map [(.str (lit "lvl"), .str (lit "debug")), (.str (lit "n"), .int .int64 5)]) =
      .map [(lit "lvl", .string (lit "debug")), (lit "n", .int64 5)] :=
  ⟨rfl, rfl, rfl, rfl, rfl⟩

/-! ## Claim C13: the attribute list -/

theorem extractAttributes_length (m : GoMap) (pfx : GoString) :
    (extractAttributes m pfx).length = m.length := by
  simp [extractAttributes]

/-- Whenever the builder returns a record, the record holds the attributes that the two
`AddAttributes` calls store: those of the resource, then those of the scope, an absent side
giving none. -/
theorem convertToOTelRecord_attributes (ul : GoString → GoString) (now : Time)
    (entry : LogEntry) (resource scope : Option GoMap) (r : Record)
    (h : convertToOTelRecord ul now entry resource scope = .ok r) :
    r.attributes = heldAttributes resource scope := by
  unfold convertToOTelRecord at h
  cases hsev : determineSeverity ul entry.Record with
  | panic msg => rw [hsev] at h; cases h
  | ok sev =>
    rw [hsev] at h
    simp only [Res.bind] at h
    injection h with h
    rw [← h]
    rfl

/-- C13 (the code at the failing input): on the record `{"msg": "hello"}` with the resource
context `{env: "prod"}` and the scope context `{name: "svc"}`, `convertToOTelRecord` panics
before any attribute is added, where the two-entry list `("resource.env", String "prod")`,
`("scope.name", String "svc")` is due. -/
theorem C13_no_attributes_when_builder_panics (ul : GoString → GoString) (now ts : Time) :
    convertToOTelRecord ul now
      { Timestamp := ts, Record := [(.str (lit "msg"), .str (lit "hello"))] }
      (some [(.str (lit "env"), .str (lit "prod"))])
      (some [(.str (lit "name"), .str (lit "svc"))]) = .panic unhashablePanic ∧
    contextAttributes (some [(.str (lit "env"), .str (lit "prod"))])
      (some [(.str (lit "name"), .str (lit "svc"))]) =
      [(lit "resource.env", .string (lit "prod")), (lit "scope.name", .string (lit "svc"))] :=
  ⟨rfl, rfl⟩

/-! ## Claim C14: sequences of maps -/

theorem convertMapSliceElems_eq_map (s : List GoMap) :
    convertMapSliceElems s = s.map convertMapToLogValue := by
  induction s with
  | nil => simp [convertMapSliceElems]
  | cons m rest ih => simp [convertMapSliceElems, ih, convertMapToLogValue]

/-- C14: for every `[]map[interface{}]interface{}`, the empty one included,
`convertToLogValue` returns the Sequence of the same length whose i-th element is the
key-value list of the i-th map, whatever `isBytes` would say of the elements; the empty one
gives the empty Sequence and not the empty String. -/
theorem C14_map_slice_converts_to_sequence (s : List GoMap) :
    convertToLogValue (.mapSlice s) = .slice (s.map convertMapToLogValue) ∧
    (s.map convertMapToLogValue).length = s.length ∧
    (∀ m ∈ s, convertMapToLogValue m =
      .map (m.map fun e => (interfaceToString e.1, convertToLogValue e.2))) ∧
    convertToLogValue (.mapSlice []) = .slice [] ∧
    convertToLogValue (.mapSlice []) ≠ .string [] := by
  refine ⟨?_, by simp, ?_, rfl, ?_⟩
  · rw [convertToLogValue, convertMapSliceElems_eq_map]
  · intro m _
    rw [convertMapToLogValue, convertMapEntries_eq_map]
  · intro h
    cases h

/-! ## Claim C15: iteration order -/

theorem strKeys_eq_filterMap (m : GoMap) :
    strKeys m = m.filterMap fun e => match e.1 with
      | .str s => some s
      | _ => none := by
  induction m with
  | nil => rfl
  | cons e rest ih =>
    obtain ⟨k, v⟩ := e
    cases k <;> simp [strKeys, List.filterMap_cons, ih]

theorem strKeys_perm (m1 m2 : GoMap) (h : m1.Perm m2) : (strKeys m1).Perm (strKeys m2) := by
  rw [strKeys_eq_filterMap, strKeys_eq_filterMap]
  exact h.filterMap _

theorem mem_of_mapIndexString (m : GoMap) (key : GoString) (val : Dyn)
    (h : mapIndexString m key = some val) : (Dyn.str key, val) ∈ m := by
  induction m with
  | nil => simp [mapIndexString] at h
  | cons e rest ih =>
    obtain ⟨k, v⟩ := e
    cases k with
    | str s =>
      by_cases hs : s = key
      · simp [mapIndexString, hs] at h
        simp [hs, h]
      · simp only [mapIndexString, hs, if_false] at h
        exact List.mem_cons_of_mem _ (ih h)
    | _ =>
      simp only [mapIndexString] at h
      exact List.mem_cons_of_mem _ (ih h)

theorem mapIndexString_of_mem (m : GoMap) (key : GoString) (val : Dyn)
    (hnd : (strKeys m).Nodup) (h : (Dyn.str key, val) ∈ m) :
    mapIndexString m key = some val := by
  induction m with
  | nil => cases h
  | cons e rest ih =>
    obtain ⟨k, v⟩ := e
    rcases List.mem_cons.mp h with heq | hmem
    · cases heq
      simp [mapIndexString]
    · cases k with
      | str s =>
        have hnd2 : s ∉ strKeys rest ∧ (strKeys rest).Nodup := by
          simpa [strKeys] using hnd
        have hne : s ≠ key := by
          intro hs
          exact hnd2.1 (hs ▸ mem_strKeys rest key val hmem)
        simp only [mapIndexString, hne, if_false]
        exact ih hnd2.2 hmem
      | _ =>
        simp only [mapIndexString]
        exact ih (by simpa [strKeys] using hnd) hmem

theorem mapIndexString_perm (m1 m2 : GoMap) (key : GoString) (h : m1.Perm m2)
    (hnd : (strKeys m1).Nodup) : mapIndexString m1 key = mapIndexString m2 key := by
  have hnd2 : (strKeys m2).Nodup := (strKeys_perm m1 m2 h).nodup_iff.mp hnd
  cases h1 : mapIndexString m1 key with
  | some val =>
    exact (mapIndexString_of_mem m2 key val hnd2
      (h.subset (mem_of_mapIndexString m1 key val h1))).symm
  | none =>
    cases h2 : mapIndexString m2 key with
    | none => rfl
    | some val =>
      have := mapIndexString_of_mem m1 key val hnd
        (h.symm.subset (mem_of_mapIndexString m2 key val h2))
      rw [h1] at this
      cases this

theorem unhashableMessage_perm (m1 m2 : GoMap) (h : m1.Perm m2) :
    unhashableMessage m1 = unhashableMessage m2 := by
  have hlen := h.length_eq
  cases m1 <;> cases m2 <;> simp_all [unhashableMessage]

theorem determineSeverity_eq_of_mapIndexString_eq (ul : GoString → GoString)
    (m1 m2 : GoMap) (h : mapIndexString m1 (lit "level") = mapIndexString m2 (lit "level"))
    (hm : unhashableMessage m1 = unhashableMessage m2) :
    determineSeverity ul m1 = determineSeverity ul m2 := by
  cases h1 : mapIndexString m1 (lit "level") with
  | some val =>
    rw [determineSeverity_of_level ul m1 val h1,
      determineSeverity_of_level ul m2 val (h ▸ h1)]
  | none =>
    rw [determineSeverity_panics_without_level ul m1 h1,
      determineSeverity_panics_without_level ul m2 (h ▸ h1), hm]

/-- C15: for every record (a map: no string twice as a key) and every two orders in which
its entries may be iterated, `determineSeverity` has the same outcome: the same severity, or
the same panic when the string key `level` is absent.  Entries under other keys with the same
string form, in any position, do not change it. -/
theorem C15_severity_independent_of_iteration_order (ul : GoString → GoString)
    (m1 m2 : GoMap) (hperm : m1.Perm m2) (hnd : (strKeys m1).Nodup) :
    determineSeverity ul m1 = determineSeverity ul m2 :=
  determineSeverity_eq_of_mapIndexString_eq ul m1 m2
    (mapIndexString_perm m1 m2 (lit "level") hperm hnd) (unhashableMessage_perm m1 m2 hperm)

theorem C15_severity_independent_of_iteration_order_witness :
    determineSeverity id
        [(.str (lit "severity"), .str (lit "error")), (.str (lit "level"), .str (lit "warn"))] =
      determineSeverity id
        [(.str (lit "level"), .str (lit "warn")), (.str (lit "severity"), .str (lit "error"))] :=
  C15_severity_independent_of_iteration_order id _ _ (List.Perm.swap _ _ _) (by decide)

/-! ## Claim C16: severity text -/

/-- C16: `severityToText` maps the four sub-levels of each of the six names to the upper-case
word of the name, and every severity value outside the 24 defined levels to "INFO". -/
theorem C16_severity_text (sev : Severity) (h : sev < SeverityTrace ∨ SeverityFatal4 < sev) :
    [SeverityTrace, SeverityTrace2, SeverityTrace3, SeverityTrace4].map severityToText =
      List.replicate 4 (lit "TRACE") ∧
    [SeverityDebug, SeverityDebug2, SeverityDebug3, SeverityDebug4].map severityToText =
      List.replicate 4 (lit "DEBUG") ∧
    [SeverityInfo, SeverityInfo2, SeverityInfo3, SeverityInfo4].map severityToText =
      List.replicate 4 (lit "INFO") ∧
    [SeverityWarn, SeverityWarn2, SeverityWarn3, SeverityWarn4].map severityToText =
      List.replicate 4 (lit "WARN") ∧
    [SeverityError, SeverityError2, SeverityError3, SeverityError4].map severityToText =
      List.replicate 4 (lit "ERROR") ∧
    [SeverityFatal, SeverityFatal2, SeverityFatal3, SeverityFatal4].map severityToText =
      List.replicate 4 (lit "FATAL") ∧
    severityToText sev = lit "INFO" := by
  refine ⟨by decide, by decide, by decide, by decide, by decide, by decide, ?_⟩
  have key : ∀ x : Int, (x < 1 ∨ 24 < x) → severityToText x = lit "INFO" := by
    intro x hx
    have hint : ∀ n : Int, (x = n) = (x - n = 0) := fun n => by
      apply propext
      constructor <;> intro h <;> omega
    simp only [severityToText, SeverityTrace, SeverityTrace2, SeverityTrace3, SeverityTrace4,
      SeverityDebug, SeverityDebug2, SeverityDebug3, SeverityDebug4, SeverityInfo,
      SeverityInfo2, SeverityInfo3, SeverityInfo4, SeverityWarn, SeverityWarn2, SeverityWarn3,
      SeverityWarn4, SeverityError, SeverityError2, SeverityError3, SeverityError4,
      SeverityFatal, SeverityFatal2, SeverityFatal3, SeverityFatal4]
    split_ifs <;> first
      | rfl
      | (exfalso; simp only [hint] at *; omega)
  exact key sev h

theorem C16_severity_text_witness :
    [SeverityTrace, SeverityTrace2, SeverityTrace3, SeverityTrace4].map severityToText =
      List.replicate 4 (lit "TRACE") ∧
    [SeverityDebug, SeverityDebug2, SeverityDebug3, SeverityDebug4].map severityToText =
      List.replicate 4 (lit "DEBUG") ∧
    [SeverityInfo, SeverityInfo2, SeverityInfo3, SeverityInfo4].map severityToText =
      List.replicate 4 (lit "INFO") ∧
    [SeverityWarn, SeverityWarn2, SeverityWarn3, SeverityWarn4].map severityToText =
      List.replicate 4 (lit "WARN") ∧
    [SeverityError, SeverityError2, SeverityError3, SeverityError4].map severityToText =
      List.replicate 4 (lit "ERROR") ∧
    [SeverityFatal, SeverityFatal2, SeverityFatal3, SeverityFatal4].map severityToText =
      List.replicate 4 (lit "FATAL") ∧
    severityToText 25 = lit "INFO" :=
  C16_severity_text 25 (Or.inr (by decide))

/-! ## Claims C17 to C19: maps, keys and the fallback of the converter -/

theorem convertStringMapEntries_eq_map (m : List (GoString × Dyn)) :
    convertStringMapEntries m = m.map fun e => (e.1, convertToLogValue e.2) := by
  induction m with
  | nil => simp [convertStringMapEntries]
  | cons e rest ih => obtain ⟨k, v⟩ := e; simp [convertStringMapEntries, ih]

/-- C17: for every map, with keys of any type or with string keys, `convertToLogValue`
returns the key-value list with one entry `(stringify k, convertToLogValue v)` per source entry
`(k, v)`, in iteration order and of the same length; entries whose keys have the same string
form are all kept, as the two entries with keys `int64(1)` and `true`, both keyed "". -/
theorem C17_map_converts_entry_by_entry (m : GoMap) (sm : List (GoString × Dyn)) :
    convertToLogValue (.map m) =
      .map (m.map fun e => (interfaceToString e.1, convertToLogValue e.2)) ∧
    (m.map fun e => (interfaceToString e.1, convertToLogValue e.2)).length = m.length ∧
    convertToLogValue (.strMap sm) = .map (sm.map fun e => (e.1, convertToLogValue e.2)) ∧
    (sm.map fun e => (e.1, convertToLogValue e.2)).length = sm.length ∧
    convertToLogValue
        (.map [(.int .int64 1, .str (lit "a")), (.bool true, .str (lit "b"))]) =
      .map [([], .string (lit "a")), ([], .string (lit "b"))] := by
  refine ⟨?_, by simp, ?_, by simp, rfl⟩
  · rw [convertToLogValue, convertMapEntries_eq_map]
  · rw [convertToLogValue, convertStringMapEntries_eq_map]

/-- C18 (as stated, refuted): the sequence holding the `int` values 104 and 105, which is
neither a string nor a byte string, has the string form "hi" and not the empty string. -/
theorem C18_byte_like_sequence_is_not_empty :
    interfaceToString (.slice [.int .int 104, .int .int 105]) = lit "hi" ∧
    interfaceToString (.slice [.int .int 104, .int .int 105]) ≠ [] := by
  decide

/-- C18 (amended): `interfaceToString` returns a string unchanged and a byte string as its
bytes; for a `[]interface{}` it returns the bytes of the elements when the sequence passes
`isBytes` and the empty string when it does not; for a value of any other type (integer,
bool, float, nil, map, sequence of maps, anything else) it returns the empty string. -/
theorem C18_key_stringification (s b : GoString) (l : List Dyn) (v : Dyn)
    (hv : v.isTextOrSlice = false) :
    interfaceToString (.str s) = s ∧
    interfaceToString (.bytes b) = b ∧
    interfaceToString (.slice l) = (if isBytes l then interfaceSliceToString l else []) ∧
    interfaceToString v = [] := by
  refine ⟨rfl, rfl, rfl, ?_⟩
  cases v <;> simp_all [Dyn.isTextOrSlice, interfaceToString]

theorem C18_key_stringification_witness :
    interfaceToString (.str (lit "level")) = lit "level" ∧
    interfaceToString (.bytes (lit "lvl")) = lit "lvl" ∧
    interfaceToString (.slice [.int .int 104, .str (lit "x")]) =
      (if isBytes [.int .int 104, .str (lit "x")]
        then interfaceSliceToString [.int .int 104, .str (lit "x")] else []) ∧
    interfaceToString (.int .int64 7) = [] :=
  C18_key_stringification (lit "level") (lit "lvl") [.int .int 104, .str (lit "x")]
    (.int .int64 7) rfl

/-- C19: `convertToLogValue` returns the String with no bytes for the nil interface and for
a value of any type outside the type switch; and for every value the kind of the result is
Bool, Int64, Float64, String, Slice or Map, never Empty or Bytes. -/
theorem C19_fallback_and_result_kinds (v : Dyn) (tag : Nat) :
    convertToLogValue .nil = .string [] ∧
    convertToLogValue (.other tag) = .string [] ∧
    (convertToLogValue v).kind ≠ Kind.empty ∧
    (convertToLogValue v).kind ≠ Kind.bytes ∧
    (convertToLogValue v).kind ∈
      [Kind.bool, Kind.int64, Kind.float64, Kind.string, Kind.slice, Kind.map] := by
  refine ⟨rfl, rfl, ?_⟩
  cases v with
  | int k x => cases k <;> simp [convertToLogValue, LogValue.kind]
  | slice l =>
    rw [convertToLogValue_slice]
    split <;> simp [LogValue.kind]
  | _ => simp [convertToLogValue, LogValue.kind, interfaceToString]

/-! ## Claim C20: the range of the classifier -/

theorem parseSeverity_mem_base (l : GoString) : parseSeverity l ∈ baseSeverities := by
  unfold parseSeverity
  split_ifs <;> simp [baseSeverities]

theorem severityToText_of_base (sev : Severity) (h : sev ∈ baseSeverities) :
    severityToText sev = baseSeverityName sev := by
  simp only [baseSeverities, List.mem_cons, List.mem_singleton, List.not_mem_nil,
    or_false] at h
  rcases h with rfl | rfl | rfl | rfl | rfl | rfl <;> decide

/-- Whenever `determineSeverity` returns, the severity is one of the six base severities and
its text is the upper-case name of that severity. -/
theorem determineSeverity_result_is_base (ul : GoString → GoString) (record : GoMap)
    (sev : Severity) (h : determineSeverity ul record = .ok sev) :
    sev ∈ baseSeverities ∧ severityToText sev = baseSeverityName sev := by
  cases hl : mapIndexString record (lit "level") with
  | none =>
    rw [determineSeverity_panics_without_level ul record hl] at h
    cases h
  | some val =>
    rw [determineSeverity_of_level ul record val hl] at h
    injection h with h
    subst h
    exact ⟨parseSeverity_mem_base _, severityToText_of_base _ (parseSeverity_mem_base _)⟩

/-- C20 (the code at the failing input): on the record `{"lvl": "trace"}`, whose level text
parses to the base severity Trace with text "TRACE", `determineSeverity` returns no severity
and `convertToOTelRecord` sets no SeverityText: both panic in the `[]byte` lookup of the alias
`level`. -/
theorem C20_no_severity_when_level_is_absent (ul : GoString → GoString) (now ts : Time) :
    determineSeverity ul [(.str (lit "lvl"), .str (lit "trace"))] = .panic unhashablePanic ∧
    convertToOTelRecord ul now
      { Timestamp := ts, Record := [(.str (lit "lvl"), .str (lit "trace"))] } none none =
      .panic unhashablePanic ∧
    parseSeverity (stringsToLower ul (lit "trace")) = SeverityTrace ∧
    severityToText SeverityTrace = lit "TRACE" :=
  ⟨rfl, rfl, rfl, rfl⟩

end OtelRecord
